import Mathlib

/-!
Verification of the GTFS2GMNS graph-construction pipeline
(`src/gtfs2gmns.py`) against its natural-language specification.

The Python source is shallowly embedded: pandas frames become lists of
records, pandas/NumPy operations become explicit list functions, time
stamps become naturals (minutes/seconds), coordinates become rationals,
and fallible pandas calls (`pd.concat` on an empty list) return `Except`.
External collaborators the spec declares out of scope (the great-circle
distance primitive, the `route_type` to `node_type` mappings, the opaque
labeling routines from the missing `func_lib` module) are taken as
function parameters, so every theorem holds for all of their behaviors.
-/

namespace GtfsToGmns

/-- Empty-string cell value of a CSV field. -/
def emptyCell : String := ""

/-- Single-blank cell value of a CSV field. -/
def blankCell : String := " "

/-- Row of `stop_times.txt` as read by `pd.read_csv`: the two time columns
may be missing (`none` models a pandas `NaN`). -/
structure RawStopTime where
  trip_id : String
  stop_id : String
  stop_sequence : Int
  arrival_time : Option String
  departure_time : Option String
deriving DecidableEq

/-- Embedding of `gtfs2gmns.py` lines 130-139: `dropna(subset=['arrival_time'])`
followed by the four comparisons against the empty and the single-blank
string.  A pandas comparison of `NaN` with a string is `True` for `!=`, so a
`none` in `departure_time` passes every comparison filter, exactly as in the
source. -/
def drop_blank_times (rows : List RawStopTime) : List RawStopTime :=
  let s1 := rows.filter (fun r => decide (r.arrival_time ≠ none))
  let s2 := s1.filter (fun r => decide (r.arrival_time ≠ some emptyCell))
  let s3 := s2.filter (fun r => decide (r.departure_time ≠ some emptyCell))
  let s4 := s3.filter (fun r => decide (r.arrival_time ≠ some blankCell))
  s4.filter (fun r => decide (r.departure_time ≠ some blankCell))

/-- Month lengths of the year 2021 (not a leap year); the source anchors its
time conversion at `datetime.datetime(2021, 1, 1)`. -/
def monthLengths2021 : List Nat := [31, 28, 31, 30, 31, 30, 31, 31, 30, 31, 30, 31]

/-- Day of month reached after `d` whole days, walking the month-length
table. -/
def dayOfMonthAux : List Nat → Nat → Nat
  | [], d => d + 1
  | m :: ms, d => if d < m then d + 1 else dayOfMonthAux ms (d - m)

/-- Day-of-month component of `datetime.datetime(2021, 1, 1) + timedelta`,
where `d` is the number of whole days in the timedelta. -/
def day_of_month_2021 (d : Nat) : Nat := dayOfMonthAux monthLengths2021 d

/-- Embedding of `gtfs2gmns.py` lines 145-149: `pd.to_timedelta` of an
`H:M:S` string gives `h*3600 + m*60 + s` seconds; adding
`datetime(2021, 1, 1)` and reading back `.hour`, `.minute` and `.day`
yields the minute count `hour*60 + minute + 1440*(day - 1)`. -/
def arrival_time_to_minutes (h m s : Nat) : Nat :=
  let total := h * 3600 + m * 60 + s
  let hh := total % 86400 / 3600
  let mm := total % 86400 % 3600 / 60
  let day := day_of_month_2021 (total / 86400)
  hh * 60 + mm + 1440 * (day - 1)

/-- Row of `trips.txt` after the direction recoding of lines 99-113; only the
columns the merge and the claims consult are kept. -/
structure TripRow where
  trip_id : String
  route_id : String
  direction_id : String
  directed_route_id : String
deriving DecidableEq

/-- Row of `routes.txt` restricted to the four selected columns (line 94). -/
structure RouteRow where
  route_id : String
  route_short_name : String
  route_long_name : String
  route_type : Int
deriving DecidableEq

/-- Embedding of `pd.merge(trip_df, route_df, on='route_id')` at line 122.
With no `how=` argument pandas performs an inner join: each trip row is
paired with every route row of equal `route_id`, in left-row order, and a
trip row with no matching route row is dropped. -/
def merge_trip_route (trips : List TripRow) (routes : List RouteRow) :
    List (TripRow × RouteRow) :=
  trips.flatMap (fun t =>
    (routes.filter (fun r => decide (r.route_id = t.route_id))).map (fun r => (t, r)))

/-- Orphan trip for exercising the trips-routes merge: its `route_id` has no
counterpart in the routes table. -/
def orphanTrip : TripRow :=
  { trip_id := "t1", route_id := "r1", direction_id := "2", directed_route_id := "r1.2" }

/-- Cleaned stop-time row after time conversion: both time columns are
integer minutes. -/
structure StopTimeRow where
  trip_id : String
  stop_id : String
  stop_sequence : Int
  arrival_time : Nat
  departure_time : Nat
deriving DecidableEq

/-- Running minimum of a nonempty prefix, as `pandas.Series.min` folds. -/
def series_min_from (a : Nat) : List Nat → Nat
  | [] => a
  | b :: bs => series_min_from (Nat.min a b) bs

/-- Embedding of `pandas.Series.min`: `none` on an empty column (pandas
yields `NaN` there, and `NaN <= x` is false). -/
def series_min : List Nat → Option Nat
  | [] => none
  | a :: as => some (series_min_from a as)

/-- Embedding of the window filter at lines 161-164: a trip group is kept
iff `min(arrival) <= period_end` and `min(arrival) >= period_start`.  On an
empty group both masks are false because `NaN` comparisons are false. -/
def keep_trip (pstart pend : Nat) (g : List StopTimeRow) : Bool :=
  match series_min (g.map (fun r => r.arrival_time)) with
  | some m => decide (m ≤ pend) && decide (pstart ≤ m)
  | none => false

/-- Message of the `ValueError` pandas raises on `pd.concat` of an empty
object list. -/
def concatErrorMsg : String := "No objects to concatenate"

/-- Embedding of `pd.concat(output_list, axis=0)` at line 172: concatenating
an empty list of frames raises `ValueError`. -/
def concat_frames (ls : List (List StopTimeRow)) : Except String (List StopTimeRow) :=
  if ls = [] then Except.error concatErrorMsg else Except.ok ls.flatten

/-- Embedding of lines 155-172 of `read_gtfs_data`: the trip groups are
filtered by the analysis window, each surviving group is mapped through
`determine_terminal_flag` and then `stop_sequence_label` (both live in the
out-of-scope `func_lib` module and are taken here as the parameters `flag`
and `label`), and the results are concatenated by `pd.concat`. -/
def label_and_concat (flag label : List StopTimeRow → List StopTimeRow)
    (pstart pend : Nat) (groups : List (List StopTimeRow)) :
    Except String (List StopTimeRow) :=
  concat_frames (((groups.filter (keep_trip pstart pend)).map flag).map label)

/-- Stop-time group of a single trip whose earliest (and only) arrival is
06:00, i.e. 360 minutes. -/
def trip0600 : StopTimeRow :=
  { trip_id := "t1", stop_id := "A", stop_sequence := 1,
    arrival_time := 360, departure_time := 360 }

/-- Row of the enriched frame `directed_trip_route_stop_time_df` (the result
of `read_gtfs_data`), restricted to the columns `create_nodes` and the link
builders consult. -/
structure EnrichedRow where
  trip_id : String
  stop_id : String
  stop_sequence : Int
  arrival_time : Nat
  stop_lat : ℚ
  stop_lon : ℚ
  route_type : Int
  route_id : String
  directed_route_id : String
  directed_service_id : String
  directed_service_stop_id : String
  terminal_flag : String
  agency_name : String
deriving DecidableEq

/-- Keep-first deduplication walk: a row is emitted iff its key was not
seen on an earlier row. -/
def dropDupFirstAux (key : EnrichedRow → String) (seen : List String) :
    List EnrichedRow → List EnrichedRow
  | [] => []
  | r :: rest =>
    if key r ∈ seen then dropDupFirstAux key seen rest
    else r :: dropDupFirstAux key (key r :: seen) rest

/-- Embedding of `DataFrame.drop_duplicates(subset=[...])` with the pandas
default `keep='first'`: the first row of each key survives, in frame order.
The key is supplied as a function. -/
def drop_duplicates_first (key : EnrichedRow → String)
    (rows : List EnrichedRow) : List EnrichedRow :=
  dropDupFirstAux key [] rows

/-- Ordered insert for the sorting embedding. -/
def insertSorted (le : EnrichedRow → EnrichedRow → Bool) (a : EnrichedRow) :
    List EnrichedRow → List EnrichedRow
  | [] => [a]
  | b :: bs => if le a b then a :: b :: bs else b :: insertSorted le a bs

/-- Embedding of `DataFrame.sort_values(by=[...])`: after the keep-first
deduplication the sort keys are pairwise distinct, so any comparison sort
produces the same frame; insertion sort is used. -/
def sort_values (le : EnrichedRow → EnrichedRow → Bool) :
    List EnrichedRow → List EnrichedRow
  | [] => []
  | a :: as => insertSorted le a (sort_values le as)

/-- Node row of the produced node table, restricted to the columns the
claims consult. -/
structure NodeRow where
  name : String
  node_id : Nat
  physical_node_id : Nat
  x_coord : ℚ
  y_coord : ℚ
  route_type : Int
  route_id : String
  node_type : String
  directed_route_id : String
  directed_service_id : String
  terminal_flag : String
  agency_name : String
deriving DecidableEq

/-- Physical-node emission of `create_nodes` lines 219-242, after the frame
has been deduplicated by `stop_id` and sorted by name: the row at 0-based
position `k - 1` receives `node_id = 1_000_000 + k` (the `np.linspace`
ramp starts at 1), and every attribute is copied from its surviving
enriched row.  `cvtP` is the out-of-scope
`convert_route_type_to_node_type_p` mapping. -/
def physNodesAux (cvtP : Int → String) : Nat → List EnrichedRow → List NodeRow
  | _, [] => []
  | k, r :: rest =>
    { name := r.stop_id,
      node_id := 1000000 + k,
      physical_node_id := 1000000 + k,
      x_coord := r.stop_lon,
      y_coord := r.stop_lat,
      route_type := r.route_type,
      route_id := r.route_id,
      node_type := cvtP r.route_type,
      directed_route_id := emptyCell,
      directed_service_id := emptyCell,
      terminal_flag := r.terminal_flag,
      agency_name := r.agency_name } :: physNodesAux cvtP (k + 1) rest

/-- Physical nodes of `create_nodes`: deduplicate the enriched frame by
`stop_id` keeping the first occurrence, sort by `stop_id`, then assign ids
`1_000_000 + 1, 1_000_000 + 2, ...` down the sorted frame. -/
def physical_nodes (cvtP : Int → String) (rows : List EnrichedRow) : List NodeRow :=
  physNodesAux cvtP 1
    (sort_values (fun a b => decide (a.stop_id ≤ b.stop_id))
      (drop_duplicates_first (fun r => r.stop_id) rows))

/-- Python-dict lookup built by `dict(zip(keys, values))`: a later binding of
the same key overwrites an earlier one.  A missing key would raise
`KeyError` in the source; the embedding returns 0 there, a case no claim
exercises. -/
def dictOf (pairs : List (String × Nat)) (k : String) : Nat :=
  match pairs.reverse.find? (fun p => p.1 == k) with
  | some p => p.2
  | none => 0

/-- Service-node emission of `create_nodes` lines 246-272: ids ramp from
`1_500_000 + 1`, the physical back-reference comes from the
`stop_name_id_dict` built over the physical nodes, and the coordinates are
offset by −0.0001.  `cvtS` is the out-of-scope
`convert_route_type_to_node_type_s` mapping. -/
def servNodesAux (cvtS : Int → String) (pdict : String → Nat) :
    Nat → List EnrichedRow → List NodeRow
  | _, [] => []
  | k, r :: rest =>
    { name := r.directed_service_stop_id,
      node_id := 1500000 + k,
      physical_node_id := pdict r.stop_id,
      x_coord := r.stop_lon - 1/10000,
      y_coord := r.stop_lat - 1/10000,
      route_type := r.route_type,
      route_id := r.route_id,
      node_type := cvtS r.route_type,
      directed_route_id := r.directed_route_id,
      directed_service_id := r.directed_service_id,
      terminal_flag := r.terminal_flag,
      agency_name := r.agency_name } :: servNodesAux cvtS pdict (k + 1) rest

/-- Service nodes of `create_nodes`: deduplicate by
`directed_service_stop_id` keeping the first occurrence, sort by it, assign
ids `1_500_000 + 1, 1_500_000 + 2, ...`. -/
def service_nodes (cvtP cvtS : Int → String) (rows : List EnrichedRow) : List NodeRow :=
  servNodesAux cvtS
    (dictOf ((physical_nodes cvtP rows).map (fun n => (n.name, n.node_id))))
    1
    (sort_values (fun a b => decide (a.directed_service_stop_id ≤ b.directed_service_stop_id))
      (drop_duplicates_first (fun r => r.directed_service_stop_id) rows))

/-- Embedding of `create_nodes` (lines 213-275): the concatenation of the
physical and the service node frames, physical first. -/
def create_nodes (cvtP cvtS : Int → String) (rows : List EnrichedRow) : List NodeRow :=
  physical_nodes cvtP rows ++ service_nodes cvtP cvtS rows

/-- Emitted link, restricted to the columns the claims consult
(`link_id`, the endpoint pair, and the kind tag `link_type`:
1 = service, 2 = boarding, 3 = transferring). -/
structure Link where
  link_id : Nat
  from_node_id : Nat
  to_node_id : Nat
  link_type : Nat
deriving DecidableEq

/-- Sort used on the representative trip of a directed service
(`one_line_df.sort_values(by=['stop_sequence'])`). -/
def sortByStopSeq (l : List EnrichedRow) : List EnrichedRow :=
  sort_values (fun a b => decide (a.stop_sequence ≤ b.stop_sequence)) l

/-- Representative line of one `directed_service_id` group, lines 301-304:
`trip_id.unique()[0]` is the first trip of the group; its rows are selected
and sorted by `stop_sequence`. -/
def one_line (g : List EnrichedRow) : List EnrichedRow :=
  match g with
  | [] => []
  | r0 :: _ => sortByStopSeq (g.filter (fun r => decide (r.trip_id = r0.trip_id)))

/-- Service-link emission over one representative line, lines 306-343: for
each adjacent pair of rows one link with
`link_id = 1_000_000 + number_of_route_links + 1` is appended and the
counter `cnt` (modelling `number_of_route_links`) then increments. -/
def serviceLinksLine (nodeIdOf : String → Nat) : Nat → List EnrichedRow → List Link
  | _, [] => []
  | _, [_] => []
  | cnt, r1 :: r2 :: rest =>
    { link_id := 1000000 + cnt + 1,
      from_node_id := nodeIdOf r1.directed_service_stop_id,
      to_node_id := nodeIdOf r2.directed_service_stop_id,
      link_type := 1 } :: serviceLinksLine nodeIdOf (cnt + 1) (r2 :: rest)

/-- Service-link emission over the `groupby('directed_service_id')` groups,
lines 294-343, including the `labeled_directed_service_list` skip of a
group whose key was already seen. -/
def serviceLinksGroups (nodeIdOf : String → Nat) :
    List String → Nat → List (String × List EnrichedRow) → List Link
  | _, _, [] => []
  | labeled, cnt, (gid, g) :: rest =>
    if gid ∈ labeled then serviceLinksGroups nodeIdOf labeled cnt rest
    else
      serviceLinksLine nodeIdOf cnt (one_line g) ++
        serviceLinksGroups nodeIdOf (gid :: labeled)
          (cnt + (serviceLinksLine nodeIdOf cnt (one_line g)).length) rest

/-- Boarding-link emission, lines 354-411: for the service node at 0-based
position `c / 2` the inbound link gets
`link_id = 1_000_000 + number_of_route_links + c` — with no `+ 1`, unlike
the service loop — and the outbound link the successor id. -/
def boardingLinksAux (base : Nat) : Nat → List NodeRow → List Link
  | _, [] => []
  | c, s :: rest =>
    { link_id := base + c,
      from_node_id := s.physical_node_id,
      to_node_id := s.node_id,
      link_type := 2 } ::
    { link_id := base + c + 1,
      from_node_id := s.node_id,
      to_node_id := s.physical_node_id,
      link_type := 2 } :: boardingLinksAux base (c + 2) rest

/-- Embedding of `create_service_boarding_links` (lines 277-418): service
links from the directed-service groups, then one inbound and one outbound
boarding link per service node (`node_id != physical_node_id`), appended to
the accumulator list the caller passes in. -/
def create_service_boarding_links (groups : List (String × List EnrichedRow))
    (nodes : List NodeRow) (acc : List Link) : List Link :=
  let nodeIdOf := dictOf (nodes.map (fun n => (n.name, n.node_id)))
  let svc := serviceLinksGroups nodeIdOf [] 0 groups
  let snodes := nodes.filter (fun n => decide (n.node_id ≠ n.physical_node_id))
  acc ++ svc ++ boardingLinksAux (1000000 + svc.length) 0 snodes

/-- Endpoint pair of a link, the key of the final deduplication. -/
def ftKey (l : Link) : Nat × Nat := (l.from_node_id, l.to_node_id)

/-- Embedding of
`drop_duplicates(subset=['from_node_id', 'to_node_id'], keep='last')` at
lines 557-559: a row survives iff no later row has the same endpoint pair;
surviving rows keep their order. -/
def drop_duplicates_keep_last : List Link → List Link
  | [] => []
  | l :: rest =>
    if rest.any (fun x => decide (ftKey x = ftKey l)) then drop_duplicates_keep_last rest
    else l :: drop_duplicates_keep_last rest

/-- Physical-node selection of `create_transferring_links`, line 423:
rows of the node table with `node_id == physical_node_id`. -/
def physical_rows (nodes : List NodeRow) : List NodeRow :=
  nodes.filter (fun n => decide (n.node_id = n.physical_node_id))

/-- Bounding-box neighborhood of lines 432-437: candidates within 0.003
degrees of the reference in both coordinates, in table order. -/
def bbox_neighbors (pnodes : List NodeRow) (refx refy : ℚ) : List NodeRow :=
  pnodes.filter (fun n =>
    decide (refx - 3/1000 ≤ n.x_coord) && decide (n.x_coord ≤ refx + 3/1000) &&
    decide (refy - 3/1000 ≤ n.y_coord) && decide (n.y_coord ≤ refy + 3/1000))

/-- Inner candidate loop of `create_transferring_links`, lines 446-510.
`dist` is the out-of-scope great-circle primitive
`calculate_distance_from_geometry(lon1, lat1, lon2, lat2)` in meters,
`labeled` the `(route_id, agency_name)` pairs already paired with the
origin, `count` the fan-out counter, and `nid` the running global
`number_of_transferring_links`; the result carries the emitted links and
the updated counter. -/
def transfer_inner (dist : ℚ → ℚ → ℚ → ℚ → ℚ) (p : NodeRow) :
    List NodeRow → List (String × String) → Nat → Nat → List Link × Nat
  | [], _, _, nid => ([], nid)
  | q :: rest, labeled, count, nid =>
    if count ≥ 10 then ([], nid)
    else if (p.route_id, p.agency_name) = (q.route_id, q.agency_name) then
      transfer_inner dist p rest labeled count nid
    else if dist p.x_coord p.y_coord q.x_coord q.y_coord > 321.869 ∨
        dist p.x_coord p.y_coord q.x_coord q.y_coord < 1 then
      transfer_inner dist p rest labeled count nid
    else if (q.route_id, q.agency_name) ∈ labeled then
      transfer_inner dist p rest labeled count nid
    else
      ({ link_id := nid + 1, from_node_id := p.node_id,
         to_node_id := q.node_id, link_type := 3 } ::
       { link_id := nid + 2, from_node_id := q.node_id,
         to_node_id := p.node_id, link_type := 3 } ::
       (transfer_inner dist p rest ((q.route_id, q.agency_name) :: labeled)
         (count + 1) (nid + 2)).1,
       (transfer_inner dist p rest ((q.route_id, q.agency_name) :: labeled)
         (count + 1) (nid + 2)).2)

/-- Outer origin loop of `create_transferring_links`, lines 428-510: each
physical node in turn is paired against its bounding-box neighborhood with
a fresh `labeled_list` and `count`, while `nid` threads globally. -/
def transfer_outer (dist : ℚ → ℚ → ℚ → ℚ → ℚ) (pnodes : List NodeRow) :
    List NodeRow → Nat → List Link
  | [], _ => []
  | p :: rest, nid =>
    (transfer_inner dist p (bbox_neighbors pnodes p.x_coord p.y_coord) [] 0 nid).1 ++
      transfer_outer dist pnodes rest
        (transfer_inner dist p (bbox_neighbors pnodes p.x_coord p.y_coord) [] 0 nid).2

/-- Embedding of `create_transferring_links` (lines 420-512), appending to
the accumulator the caller passes in. -/
def create_transferring_links (dist : ℚ → ℚ → ℚ → ℚ → ℚ)
    (all_nodes : List NodeRow) (acc : List Link) : List Link :=
  acc ++ transfer_outer dist (physical_rows all_nodes) (physical_rows all_nodes) 0

/-- Default enriched row used to build concrete test frames. -/
def row0 : EnrichedRow :=
  { trip_id := "", stop_id := "", stop_sequence := 0, arrival_time := 0,
    stop_lat := 0, stop_lon := 0, route_type := 3, route_id := "",
    directed_route_id := "", directed_service_id := "",
    directed_service_stop_id := "", terminal_flag := "", agency_name := "" }

/-- Default node row used to build concrete test tables. -/
def node0 : NodeRow :=
  { name := "", node_id := 0, physical_node_id := 0, x_coord := 0, y_coord := 0,
    route_type := 3, route_id := "", node_type := "", directed_route_id := "",
    directed_service_id := "", terminal_flag := "", agency_name := "" }

/-- Trivial route-type mapping standing in for the out-of-scope converters
when a concrete instance is needed. -/
def cvt0 : Int → String := fun _ => emptyCell

/-- Two-stop representative line of the directed service `s`, used to
exercise the link-id sequence. -/
def cexGroups : List (String × List EnrichedRow) :=
  [("s", [{ row0 with
            trip_id := "t1"
            stop_id := "A"
            stop_sequence := 1
            directed_service_id := "s"
            directed_service_stop_id := "sa" },
          { row0 with
            trip_id := "t1"
            stop_id := "B"
            stop_sequence := 2
            directed_service_id := "s"
            directed_service_stop_id := "sb" }])]

/-- Node table matching `cexGroups`: two physical nodes and their two
service nodes. -/
def cexNodes : List NodeRow :=
  [{ node0 with name := "A", node_id := 1000001, physical_node_id := 1000001 },
   { node0 with name := "B", node_id := 1000002, physical_node_id := 1000002 },
   { node0 with name := "sa", node_id := 1500001, physical_node_id := 1000001 },
   { node0 with name := "sb", node_id := 1500002, physical_node_id := 1000002 }]

/-- Constant distance function (10 meters everywhere), a concrete instance
of the out-of-scope great-circle primitive. -/
def dist10 : ℚ → ℚ → ℚ → ℚ → ℚ := fun _ _ _ _ => 10

/-- Two nearby physical stops on different routes, for exercising the
transfer loop. -/
def transferNodes : List NodeRow :=
  [{ node0 with
     name := "P"
     node_id := 1000001
     physical_node_id := 1000001
     route_id := "r1" },
   { node0 with
     name := "Q"
     node_id := 1000002
     physical_node_id := 1000002
     x_coord := 1/1000
     route_id := "r2" }]

/-- First transfer link the loop emits on `transferNodes` with `dist10`. -/
def transferLink1 : Link :=
  { link_id := 1, from_node_id := 1000001, to_node_id := 1000002, link_type := 3 }

/-- Stop row whose `stop_id` has length `i`, giving 500000 pairwise distinct
stops. -/
def stopRowOfIdx (i : Nat) : EnrichedRow :=
  { row0 with stop_id := String.mk (List.replicate i 'a') }

/-- Enriched frame with 500000 distinct `stop_id`s. -/
def bigRows : List EnrichedRow := (List.range 500000).map stopRowOfIdx

/-- One-row enriched frame for witnessing the node-id ranges. -/
def rowW : EnrichedRow :=
  { row0 with stop_id := "A", directed_service_stop_id := "sa" }

/-- Enriched frame in which stop `A` occurs twice with different attributes;
the first occurrence carries `route_type = 3` and `terminal_flag` origin. -/
def dupStopRows : List EnrichedRow :=
  [{ row0 with stop_id := "A", route_type := 3, terminal_flag := "origin" },
   { row0 with
     stop_id := "A"
     route_type := 2
     terminal_flag := "intermediate"
     route_id := "r9" }]

/-- Physical node emitted for `dupStopRows`: every attribute comes from the
first occurrence of stop `A`. -/
def dupStopNode : NodeRow :=
  { node0 with
    name := "A"
    node_id := 1000001
    physical_node_id := 1000001
    route_type := 3
    terminal_flag := "origin" }

/-- Stop-time row with a valid arrival time and a missing (`NaN`)
departure time. -/
def nullDepartureRow : RawStopTime :=
  { trip_id := "t1", stop_id := "A", stop_sequence := 1,
    arrival_time := some ("07:00:00"), departure_time := none }

/-- Service links produced inside `create_service_boarding_links` for given
groups and node table. -/
def svcOf (groups : List (String × List EnrichedRow)) (nodes : List NodeRow) :
    List Link :=
  serviceLinksGroups (dictOf (nodes.map (fun n => (n.name, n.node_id)))) [] 0 groups

/-- Boarding links produced inside `create_service_boarding_links` for given
groups and node table. -/
def brdOf (groups : List (String × List EnrichedRow)) (nodes : List NodeRow) :
    List Link :=
  boardingLinksAux (1000000 + (svcOf groups nodes).length) 0
    (nodes.filter (fun n => decide (n.node_id ≠ n.physical_node_id)))

/-!
Theorems.  Claim theorems carry the claim id in their doc comment;
everything else is a shared helper lemma.
-/

/-- C1.  The source performs `pd.merge(trip_df, route_df, on='route_id')`
with the default inner join, contradicting both the spec and its own
comment (`len(trip_route_df)=len(trip_df)`): a trip whose `route_id` has no
counterpart in the routes table is dropped, so the merged frame of the
one-orphan-trip input has 0 rows while the trips table has 1. -/
theorem merge_drops_orphan_trip :
    (merge_trip_route [orphanTrip] []).length = 0 ∧
      ([orphanTrip] : List TripRow).length = 1 := by
  exact ⟨rfl, rfl⟩

/-- Counterexample to C2: with a single trip whose earliest arrival is
06:00 (360 minutes) and the window 07:00-08:00 (420-480), the labeling
stage ends in `pd.concat` of an empty list, which raises `ValueError`
instead of propagating empty tables. -/
theorem empty_window_concat_raises :
    label_and_concat id id 420 480 [[trip0600]] = Except.error concatErrorMsg := by
  rfl

/-- C2 (amended).  If no trip group passes the window filter, the labeling
stage of `read_gtfs_data` evaluates `pd.concat` on an empty list and the
run aborts with `ValueError: No objects to concatenate`; it does not
produce empty output tables. -/
theorem empty_window_aborts (flag label : List StopTimeRow → List StopTimeRow)
    (pstart pend : Nat) (groups : List (List StopTimeRow))
    (h : ∀ g ∈ groups, keep_trip pstart pend g = false) :
    label_and_concat flag label pstart pend groups = Except.error concatErrorMsg := by
  have hf : groups.filter (keep_trip pstart pend) = [] := by
    rw [List.filter_eq_nil_iff]
    intro a ha
    simp [h a ha]
  simp [label_and_concat, concat_frames, hf]

/-- Witness for `empty_window_aborts` at the 06:00-trip input. -/
theorem empty_window_aborts_witness :
    label_and_concat id id 420 480 [[trip0600]] = Except.error concatErrorMsg :=
  empty_window_aborts id id 420 480 [[trip0600]] (by decide)

/-- Counterexample to C8: a row whose `departure_time` is null but whose
`arrival_time` is a valid time survives every filter of lines 130-139,
because `dropna` subsets only `arrival_time` and a pandas `NaN` compares
unequal to every string. -/
theorem null_departure_row_kept :
    drop_blank_times [nullDepartureRow] = [nullDepartureRow] ∧
      nullDepartureRow.departure_time = none := by
  exact ⟨rfl, rfl⟩

/-- C8 (amended).  Ingest keeps a stop-time row iff its `arrival_time` is
non-null and differs from the empty and the single-blank string, and its
`departure_time` differs from the empty and the single-blank string; a
null `departure_time` alone does not drop the row. -/
theorem drop_blank_times_mem (rows : List RawStopTime) (r : RawStopTime) :
    r ∈ drop_blank_times rows ↔
      r ∈ rows ∧ r.arrival_time ≠ none ∧ r.arrival_time ≠ some emptyCell ∧
        r.arrival_time ≠ some blankCell ∧ r.departure_time ≠ some emptyCell ∧
        r.departure_time ≠ some blankCell := by
  simp only [drop_blank_times, List.mem_filter, decide_eq_true_eq]
  tauto

/-- January has 31 days, so a whole-day offset below 31 lands on day
`d + 1` of the anchor month. -/
theorem day_of_month_first (d : Nat) (hd : d < 31) : day_of_month_2021 d = d + 1 := by
  simp [day_of_month_2021, monthLengths2021, dayOfMonthAux, hd]

/-- C9.  For a duration that stays inside the anchor month (less than 31
days) with a well-formed seconds field, the conversion of lines 144-149
yields exactly `hour*60 + minute + 1440*day_offset`, which equals the raw
`h*60 + m` of the `HH:MM:SS` string. -/
theorem arrival_time_formula (h m s : Nat)
    (hlt : h * 3600 + m * 60 + s < 2678400) (hs : s < 60) :
    arrival_time_to_minutes h m s = h * 60 + m := by
  have hday := day_of_month_first ((h * 3600 + m * 60 + s) / 86400) (by omega)
  simp only [arrival_time_to_minutes, hday]
  omega

/-- Witness for `arrival_time_formula`: the overflow-day time `25:10:00`
converts to 1510 minutes. -/
theorem arrival_time_formula_witness :
    25 * 3600 + 10 * 60 + 0 < 2678400 ∧ (0 : Nat) < 60 ∧
      arrival_time_to_minutes 25 10 0 = 1510 :=
  ⟨by norm_num, by norm_num, by
    have hv := arrival_time_formula 25 10 0 (by norm_num) (by norm_num)
    simpa using hv⟩

/-- Rows surviving the keep-last deduplication come from the input. -/
theorem dedup_keep_last_subset (links : List Link) :
    ∀ l ∈ drop_duplicates_keep_last links, l ∈ links := by
  induction links with
  | nil => simp [drop_duplicates_keep_last]
  | cons a rest ih =>
    intro l hl
    rw [drop_duplicates_keep_last] at hl
    by_cases h : rest.any (fun x => decide (ftKey x = ftKey a)) = true
    · rw [if_pos h] at hl
      exact List.mem_cons_of_mem a (ih l hl)
    · rw [if_neg h] at hl
      rcases List.mem_cons.mp hl with heq | hmem
      · exact heq ▸ List.mem_cons_self a rest
      · exact List.mem_cons_of_mem a (ih l hmem)

/-- No two rows of the deduplicated table share an endpoint pair. -/
theorem dedup_keep_last_pairwise (links : List Link) :
    (drop_duplicates_keep_last links).Pairwise (fun a b => ftKey a ≠ ftKey b) := by
  induction links with
  | nil => simp [drop_duplicates_keep_last]
  | cons a rest ih =>
    rw [drop_duplicates_keep_last]
    by_cases h : rest.any (fun x => decide (ftKey x = ftKey a)) = true
    · rw [if_pos h]
      exact ih
    · rw [if_neg h]
      refine List.Pairwise.cons ?_ ih
      intro b hb hkey
      exact h (List.any_eq_true.mpr
        ⟨b, dedup_keep_last_subset rest b hb, by simp [hkey]⟩)

/-- Restricted to one endpoint pair, the deduplicated table is exactly the
last input row with that pair. -/
theorem dedup_keep_last_filter (links : List Link) (k : Nat × Nat) :
    (drop_duplicates_keep_last links).filter (fun l => decide (ftKey l = k)) =
      ((links.filter (fun l => decide (ftKey l = k))).getLast?).toList := by
  induction links with
  | nil => rfl
  | cons a rest ih =>
    rw [drop_duplicates_keep_last]
    by_cases h : rest.any (fun x => decide (ftKey x = ftKey a)) = true
    · rw [if_pos h, ih]
      by_cases hk : ftKey a = k
      · rw [List.filter_cons_of_pos (by simp [hk])]
        obtain ⟨x, hxmem, hxkey⟩ := List.any_eq_true.mp h
        have hxk : ftKey x = k := by
          have hxa : ftKey x = ftKey a := of_decide_eq_true hxkey
          rw [hxa, hk]
        have hxf : x ∈ rest.filter (fun l => decide (ftKey l = k)) :=
          List.mem_filter.mpr ⟨hxmem, by simp [hxk]⟩
        obtain ⟨y, ys, hys⟩ :=
          List.exists_cons_of_ne_nil (List.ne_nil_of_mem hxf)
        rw [hys, List.getLast?_cons_cons]
      · rw [List.filter_cons_of_neg (by simp [hk])]
    · rw [if_neg h]
      by_cases hk : ftKey a = k
      · have hnone : rest.filter (fun l => decide (ftKey l = k)) = [] := by
          rw [List.filter_eq_nil_iff]
          intro x hx hdec
          have hxk : ftKey x = k := of_decide_eq_true hdec
          exact h (List.any_eq_true.mpr ⟨x, hx, by simp [hxk, hk]⟩)
        rw [List.filter_cons_of_pos (by simp [hk]),
            List.filter_cons_of_pos (by simp [hk]), ih, hnone]
        rfl
      · rw [List.filter_cons_of_neg (by simp [hk]),
            List.filter_cons_of_neg (by simp [hk]), ih]

/-- C4.  The final `drop_duplicates(subset=['from_node_id', 'to_node_id'],
keep='last')` leaves no two rows with the same endpoint pair, and for every
endpoint pair the surviving row is the last emitted row with that pair. -/
theorem link_dedup_keeps_unique_last (links : List Link) :
    (drop_duplicates_keep_last links).Pairwise (fun a b => ftKey a ≠ ftKey b) ∧
      ∀ k : Nat × Nat,
        (drop_duplicates_keep_last links).filter (fun l => decide (ftKey l = k)) =
          ((links.filter (fun l => decide (ftKey l = k))).getLast?).toList :=
  ⟨dedup_keep_last_pairwise links, fun k => dedup_keep_last_filter links k⟩

/-- The running minimum bounds every element of the column. -/
theorem series_min_from_le (a : Nat) (l : List Nat) :
    ∀ x ∈ a :: l, series_min_from a l ≤ x := by
  induction l generalizing a with
  | nil =>
    intro x hx
    rw [List.mem_singleton] at hx
    exact hx ▸ Nat.le_refl a
  | cons b bs ih =>
    intro x hx
    rw [series_min_from]
    have hmin : series_min_from (Nat.min a b) bs ≤ Nat.min a b :=
      ih (Nat.min a b) _ (List.mem_cons_self _ _)
    rcases List.mem_cons.mp hx with h1 | hx2
    · subst h1
      exact Nat.le_trans hmin (Nat.min_le_left _ _)
    · rcases List.mem_cons.mp hx2 with h2 | h3
      · subst h2
        exact Nat.le_trans hmin (Nat.min_le_right _ _)
      · exact ih (Nat.min a b) x (List.mem_cons_of_mem _ h3)

/-- The running minimum is attained by some element of the column. -/
theorem series_min_from_mem (a : Nat) (l : List Nat) :
    series_min_from a l ∈ a :: l := by
  induction l generalizing a with
  | nil => simp [series_min_from]
  | cons b bs ih =>
    rw [series_min_from]
    have hmem := ih (Nat.min a b)
    rcases List.mem_cons.mp hmem with h1 | h2
    · rw [h1]
      rcases Nat.le_total a b with hab | hab
      · have hc : Nat.min a b = a := Nat.min_eq_left hab
        rw [hc]
        exact List.mem_cons_self _ _
      · have hc : Nat.min a b = b := Nat.min_eq_right hab
        rw [hc]
        exact List.mem_cons_of_mem _ (List.mem_cons_self _ _)
    · exact List.mem_cons_of_mem _ (List.mem_cons_of_mem _ h2)

/-- C7.  A nonempty trip group is kept by lines 161-164 iff the minimum
arrival time of its rows lies within `[period_start, period_end]`, both
bounds inclusive; a trip whose minimum arrival falls outside the window is
excluded no matter where its other arrivals lie. -/
theorem keep_trip_iff_min_in_window (pstart pend : Nat) (r : StopTimeRow)
    (g : List StopTimeRow) :
    keep_trip pstart pend (r :: g) = true ↔
      ∃ m, m ∈ (r :: g).map (fun x => x.arrival_time) ∧
        (∀ a ∈ (r :: g).map (fun x => x.arrival_time), m ≤ a) ∧
        pstart ≤ m ∧ m ≤ pend := by
  have harr : (r :: g).map (fun x => x.arrival_time) =
      r.arrival_time :: g.map (fun x => x.arrival_time) := List.map_cons _ _ _
  rw [keep_trip, harr, series_min]
  constructor
  · intro hkp
    rw [Bool.and_eq_true, decide_eq_true_eq, decide_eq_true_eq] at hkp
    exact ⟨series_min_from r.arrival_time (g.map (fun x => x.arrival_time)),
      series_min_from_mem _ _, series_min_from_le _ _, hkp.2, hkp.1⟩
  · rintro ⟨m, hmem, hub, h1, h2⟩
    have hle1 : series_min_from r.arrival_time (g.map (fun x => x.arrival_time)) ≤ m :=
      series_min_from_le _ _ m hmem
    have hle2 : m ≤ series_min_from r.arrival_time (g.map (fun x => x.arrival_time)) :=
      hub _ (series_min_from_mem _ _)
    have heq : series_min_from r.arrival_time (g.map (fun x => x.arrival_time)) = m :=
      Nat.le_antisymm hle1 hle2
    rw [Bool.and_eq_true, decide_eq_true_eq, decide_eq_true_eq, heq]
    exact ⟨h2, h1⟩

/-- Membership through ordered insertion. -/
theorem mem_insertSorted (le : EnrichedRow → EnrichedRow → Bool) (a x : EnrichedRow)
    (l : List EnrichedRow) : x ∈ insertSorted le a l ↔ x = a ∨ x ∈ l := by
  induction l with
  | nil => simp [insertSorted]
  | cons b bs ih =>
    rw [insertSorted]
    by_cases hle : le a b = true
    · rw [if_pos hle]
      simp
    · rw [if_neg hle]
      simp only [List.mem_cons, ih]
      tauto

/-- Sorting does not change the row set. -/
theorem mem_sort_values (le : EnrichedRow → EnrichedRow → Bool) (x : EnrichedRow)
    (l : List EnrichedRow) : x ∈ sort_values le l ↔ x ∈ l := by
  induction l with
  | nil => simp [sort_values]
  | cons b bs ih =>
    rw [sort_values, mem_insertSorted]
    simp [ih]

/-- Rows surviving the keep-first deduplication walk come from the input. -/
theorem dropDupFirstAux_subset (key : EnrichedRow → String) (l : List EnrichedRow) :
    ∀ seen : List String, ∀ x ∈ dropDupFirstAux key seen l, x ∈ l := by
  induction l with
  | nil => simp [dropDupFirstAux]
  | cons r rest ih =>
    intro seen x hx
    rw [dropDupFirstAux] at hx
    by_cases hs : key r ∈ seen
    · rw [if_pos hs] at hx
      exact List.mem_cons_of_mem _ (ih seen x hx)
    · rw [if_neg hs] at hx
      rcases List.mem_cons.mp hx with h1 | h2
      · exact h1 ▸ List.mem_cons_self _ _
      · exact List.mem_cons_of_mem _ (ih _ x h2)

/-- A row emitted by the keep-first walk has an unseen key and is the first
row of its key in the remaining frame. -/
theorem dropDupFirstAux_find (key : EnrichedRow → String) (l : List EnrichedRow) :
    ∀ seen : List String, ∀ x ∈ dropDupFirstAux key seen l,
      key x ∉ seen ∧ l.find? (fun y => decide (key y = key x)) = some x := by
  induction l with
  | nil => simp [dropDupFirstAux]
  | cons r rest ih =>
    intro seen x hx
    rw [dropDupFirstAux] at hx
    by_cases hs : key r ∈ seen
    · rw [if_pos hs] at hx
      obtain ⟨hnot, hfind⟩ := ih seen x hx
      have hne : ¬ key r = key x := fun hc => hnot (hc ▸ hs)
      exact ⟨hnot, by rw [List.find?_cons_of_neg _ (by simpa using hne)]; exact hfind⟩
    · rw [if_neg hs] at hx
      rcases List.mem_cons.mp hx with h1 | h2
      · subst h1
        exact ⟨hs, List.find?_cons_of_pos _ (by simp)⟩
      · obtain ⟨hnot, hfind⟩ := ih (key r :: seen) x h2
        have hne : ¬ key r = key x := by
          intro hc
          exact hnot (hc ▸ List.mem_cons_self _ _)
        refine ⟨fun hc => hnot (List.mem_cons_of_mem _ hc), ?_⟩
        rw [List.find?_cons_of_neg _ (by simpa using hne)]
        exact hfind

/-- A row surviving the keep-first deduplication is the first row of its
key in the original frame. -/
theorem dedup_first_find (key : EnrichedRow → String) (l : List EnrichedRow) :
    ∀ x ∈ drop_duplicates_first key l,
      l.find? (fun y => decide (key y = key x)) = some x :=
  fun x hx => (dropDupFirstAux_find key l [] x hx).2

/-- Physical-node rows are images of rows of the deduplicated sorted frame,
with every attribute copied from that row. -/
theorem physNodesAux_mem (cvtP : Int → String) (k : Nat) (l : List EnrichedRow)
    (node : NodeRow) (hn : node ∈ physNodesAux cvtP k l) :
    ∃ r ∈ l, node.name = r.stop_id ∧ node.route_type = r.route_type ∧
      node.route_id = r.route_id ∧ node.node_type = cvtP r.route_type ∧
      node.terminal_flag = r.terminal_flag ∧ node.x_coord = r.stop_lon ∧
      node.y_coord = r.stop_lat := by
  induction l generalizing k with
  | nil => simp [physNodesAux] at hn
  | cons r rest ih =>
    rw [physNodesAux] at hn
    rcases List.mem_cons.mp hn with h1 | h2
    · exact ⟨r, List.mem_cons_self _ _, by subst h1; exact ⟨rfl, rfl, rfl, rfl, rfl, rfl, rfl⟩⟩
    · obtain ⟨r2, hr2, hprops⟩ := ih (k + 1) h2
      exact ⟨r2, List.mem_cons_of_mem _ hr2, hprops⟩

/-- C10.  Every emitted physical node takes its `route_type`, `route_id`,
`node_type`, `terminal_flag` and coordinates from the first row of the
enriched frame carrying its `stop_id`; attributes of later occurrences are
discarded. -/
theorem physical_node_attrs_from_first_occurrence (cvtP : Int → String)
    (rows : List EnrichedRow) (node : NodeRow)
    (hn : node ∈ physical_nodes cvtP rows) :
    ∃ r, rows.find? (fun x => decide (x.stop_id = node.name)) = some r ∧
      node.route_type = r.route_type ∧ node.route_id = r.route_id ∧
      node.node_type = cvtP r.route_type ∧ node.terminal_flag = r.terminal_flag ∧
      node.x_coord = r.stop_lon ∧ node.y_coord = r.stop_lat := by
  obtain ⟨r, hrmem, hname, hprops⟩ := physNodesAux_mem cvtP 1 _ node hn
  have hrd : r ∈ drop_duplicates_first (fun x => x.stop_id) rows :=
    (mem_sort_values _ r _).mp hrmem
  have hfind := dedup_first_find (fun x => x.stop_id) rows r hrd
  refine ⟨r, ?_, hprops⟩
  rw [hname]
  exact hfind

/-- Witness for `physical_node_attrs_from_first_occurrence`: stop `A`
occurs twice in `dupStopRows` and the emitted node carries the attributes
of the first occurrence. -/
theorem physical_node_attrs_witness :
    ∃ r, dupStopRows.find? (fun x => decide (x.stop_id = dupStopNode.name)) = some r ∧
      dupStopNode.route_type = r.route_type ∧ dupStopNode.route_id = r.route_id ∧
      dupStopNode.node_type = cvt0 r.route_type ∧
      dupStopNode.terminal_flag = r.terminal_flag ∧
      dupStopNode.x_coord = r.stop_lon ∧ dupStopNode.y_coord = r.stop_lat :=
  physical_node_attrs_from_first_occurrence cvt0 dupStopRows dupStopNode (by decide)

/-- Ordered insertion grows the frame by one row. -/
theorem length_insertSorted (le : EnrichedRow → EnrichedRow → Bool)
    (a : EnrichedRow) (l : List EnrichedRow) :
    (insertSorted le a l).length = l.length + 1 := by
  induction l with
  | nil => rfl
  | cons b bs ih =>
    rw [insertSorted]
    by_cases hle : le a b = true
    · rw [if_pos hle]
      rfl
    · rw [if_neg hle]
      simp [ih]

/-- Sorting preserves the number of rows. -/
theorem length_sort_values (le : EnrichedRow → EnrichedRow → Bool)
    (l : List EnrichedRow) : (sort_values le l).length = l.length := by
  induction l with
  | nil => rfl
  | cons b bs ih =>
    rw [sort_values, length_insertSorted, ih, List.length_cons]

/-- On a frame of pairwise distinct keys none of which was seen, the
keep-first walk is the identity. -/
theorem dropDupFirstAux_eq_self (key : EnrichedRow → String) (l : List EnrichedRow) :
    ∀ seen : List String, (l.map key).Nodup → (∀ r ∈ l, key r ∉ seen) →
      dropDupFirstAux key seen l = l := by
  induction l with
  | nil => intro seen _ _; rfl
  | cons r rest ih =>
    intro seen hnd hdisj
    rw [dropDupFirstAux, if_neg (hdisj r (List.mem_cons_self _ _))]
    have hhead : key r ∉ rest.map key := (List.nodup_cons.mp (by simpa using hnd)).1
    congr 1
    apply ih
    · exact (List.nodup_cons.mp (by simpa using hnd)).2
    · intro x hx hmem
      rcases List.mem_cons.mp hmem with h1 | h2
      · exact hhead (h1 ▸ List.mem_map_of_mem key hx)
      · exact hdisj x (List.mem_cons_of_mem _ hx) h2

/-- Physical node ids down the frame are the arithmetic ramp starting at
`1_000_000 + k`. -/
theorem physNodesAux_map_id (cvtP : Int → String) (l : List EnrichedRow) :
    ∀ k : Nat, (physNodesAux cvtP k l).map NodeRow.node_id =
      (List.range l.length).map (fun i => 1000000 + k + i) := by
  induction l with
  | nil => intro k; rfl
  | cons r rest ih =>
    intro k
    rw [physNodesAux, List.map_cons, ih (k + 1), List.length_cons,
      List.range_succ_eq_map, List.map_cons, List.map_map]
    refine List.cons_eq_cons.mpr ⟨by simp, List.map_congr_left ?_⟩
    intro i hi
    simp only [Function.comp_apply]
    omega

/-- Service node ids down the frame are the arithmetic ramp starting at
`1_500_000 + k`. -/
theorem servNodesAux_map_id (cvtS : Int → String) (pdict : String → Nat)
    (l : List EnrichedRow) :
    ∀ k : Nat, (servNodesAux cvtS pdict k l).map NodeRow.node_id =
      (List.range l.length).map (fun i => 1500000 + k + i) := by
  induction l with
  | nil => intro k; rfl
  | cons r rest ih =>
    intro k
    rw [servNodesAux, List.map_cons, ih (k + 1), List.length_cons,
      List.range_succ_eq_map, List.map_cons, List.map_map]
    refine List.cons_eq_cons.mpr ⟨by simp, List.map_congr_left ?_⟩
    intro i hi
    simp only [Function.comp_apply]
    omega

/-- Bounds on a physical node id in terms of the frame it was built from. -/
theorem physNodesAux_id_bound (cvtP : Int → String) (l : List EnrichedRow)
    (k : Nat) (n : NodeRow) (hn : n ∈ physNodesAux cvtP k l) :
    1000000 + k ≤ n.node_id ∧ n.node_id < 1000000 + k + l.length := by
  have hmem : n.node_id ∈ (physNodesAux cvtP k l).map NodeRow.node_id :=
    List.mem_map_of_mem _ hn
  rw [physNodesAux_map_id] at hmem
  obtain ⟨i, hi, hid⟩ := List.mem_map.mp hmem
  have hilt := List.mem_range.mp hi
  omega

/-- Lower bound on a service node id. -/
theorem servNodesAux_id_bound (cvtS : Int → String) (pdict : String → Nat)
    (l : List EnrichedRow) (k : Nat) (n : NodeRow)
    (hn : n ∈ servNodesAux cvtS pdict k l) : 1500000 + k ≤ n.node_id := by
  have hmem : n.node_id ∈ (servNodesAux cvtS pdict k l).map NodeRow.node_id :=
    List.mem_map_of_mem _ hn
  rw [servNodesAux_map_id] at hmem
  obtain ⟨i, hi, hid⟩ := List.mem_map.mp hmem
  omega

/-- The 500000 generated stop keys are pairwise distinct. -/
theorem bigRows_keys_nodup : (bigRows.map (fun r => r.stop_id)).Nodup := by
  rw [bigRows, List.map_map]
  have hcomp : (fun r : EnrichedRow => r.stop_id) ∘ stopRowOfIdx =
      fun i => String.mk (List.replicate i 'a') := rfl
  rw [hcomp]
  refine List.Nodup.map ?_ (List.nodup_range 500000)
  intro i j hij
  have hdata : List.replicate i 'a' = List.replicate j 'a' := congrArg String.data hij
  have hlen := congrArg List.length hdata
  simpa using hlen

/-- Counterexample to C6: on an enriched frame with 500000 distinct stops
the physical-node id ramp reaches `1_500_000`, leaving the claimed range
`[1_000_001, 1_499_999]`. -/
theorem physical_node_id_exceeds_range :
    ∃ n ∈ physical_nodes cvt0 bigRows, ¬ n.node_id ≤ 1499999 := by
  have hded : drop_duplicates_first (fun r => r.stop_id) bigRows = bigRows :=
    dropDupFirstAux_eq_self _ _ [] bigRows_keys_nodup (by simp)
  have hlen : (sort_values (fun a b => decide (a.stop_id ≤ b.stop_id))
      (drop_duplicates_first (fun r => r.stop_id) bigRows)).length = 500000 := by
    rw [length_sort_values, hded, bigRows, List.length_map, List.length_range]
  have hidmem : 1500000 ∈ (physical_nodes cvt0 bigRows).map NodeRow.node_id := by
    rw [physical_nodes, physNodesAux_map_id, hlen]
    exact List.mem_map.mpr ⟨499999, List.mem_range.mpr (by norm_num), by norm_num⟩
  obtain ⟨n, hn, hid⟩ := List.mem_map.mp hidmem
  refine ⟨n, hn, ?_⟩
  rw [hid]
  norm_num

/-- C6 (amended).  Physical node ids are `1_000_000 + 1 .. 1_000_000 + n`
for `n` the number of distinct stops and service node ids are at least
`1_500_001`; when `n ≤ 499_999` — which the source never checks — the
claimed ranges hold and the two id sets are disjoint. -/
theorem node_id_ranges (cvtP cvtS : Int → String) (rows : List EnrichedRow)
    (h : (drop_duplicates_first (fun r => r.stop_id) rows).length ≤ 499999) :
    (∀ n ∈ physical_nodes cvtP rows, 1000001 ≤ n.node_id ∧ n.node_id ≤ 1499999) ∧
      (∀ n ∈ service_nodes cvtP cvtS rows, 1500001 ≤ n.node_id) ∧
      (∀ np ∈ physical_nodes cvtP rows, ∀ ns ∈ service_nodes cvtP cvtS rows,
        np.node_id ≠ ns.node_id) := by
  have hplen : (sort_values (fun a b => decide (a.stop_id ≤ b.stop_id))
      (drop_duplicates_first (fun r => r.stop_id) rows)).length ≤ 499999 := by
    rw [length_sort_values]
    exact h
  have hpb : ∀ n ∈ physical_nodes cvtP rows,
      1000001 ≤ n.node_id ∧ n.node_id ≤ 1499999 := by
    intro n hn
    have hb := physNodesAux_id_bound cvtP _ 1 n hn
    omega
  have hsb : ∀ n ∈ service_nodes cvtP cvtS rows, 1500001 ≤ n.node_id := by
    intro n hn
    have hb := servNodesAux_id_bound cvtS _ _ 1 n hn
    omega
  refine ⟨hpb, hsb, fun np hp ns hs => ?_⟩
  have h1 := hpb np hp
  have h2 := hsb ns hs
  omega

/-- Witness for `node_id_ranges` on a one-stop frame. -/
theorem node_id_ranges_witness :
    (∀ n ∈ physical_nodes cvt0 [rowW], 1000001 ≤ n.node_id ∧ n.node_id ≤ 1499999) ∧
      (∀ n ∈ service_nodes cvt0 cvt0 [rowW], 1500001 ≤ n.node_id) ∧
      (∀ np ∈ physical_nodes cvt0 [rowW], ∀ ns ∈ service_nodes cvt0 cvt0 [rowW],
        np.node_id ≠ ns.node_id) :=
  node_id_ranges cvt0 cvt0 [rowW] (by decide)

/-- Service-link ids down one representative line form the ramp starting at
`1_000_000 + cnt + 1`. -/
theorem serviceLinksLine_map_id (nodeIdOf : String → Nat) (l : List EnrichedRow) :
    ∀ cnt : Nat, (serviceLinksLine nodeIdOf cnt l).map Link.link_id =
      (List.range (serviceLinksLine nodeIdOf cnt l).length).map
        (fun i => 1000000 + cnt + 1 + i) := by
  induction l with
  | nil => intro cnt; rfl
  | cons r1 rest ih =>
    intro cnt
    cases rest with
    | nil => rfl
    | cons r2 rest2 =>
      rw [serviceLinksLine, List.map_cons, ih (cnt + 1), List.length_cons,
        List.range_succ_eq_map, List.map_cons, List.map_map]
      refine List.cons_eq_cons.mpr ⟨by simp, List.map_congr_left ?_⟩
      intro i hi
      simp only [Function.comp_apply]
      omega

/-- Service-link ids over all directed-service groups form one contiguous
ramp: the global counter resumes where the previous group stopped. -/
theorem serviceLinksGroups_map_id (nodeIdOf : String → Nat)
    (gs : List (String × List EnrichedRow)) :
    ∀ (labeled : List String) (cnt : Nat),
      (serviceLinksGroups nodeIdOf labeled cnt gs).map Link.link_id =
        (List.range (serviceLinksGroups nodeIdOf labeled cnt gs).length).map
          (fun i => 1000000 + cnt + 1 + i) := by
  induction gs with
  | nil => intro labeled cnt; rfl
  | cons g rest ih =>
    intro labeled cnt
    obtain ⟨gid, rows⟩ := g
    rw [serviceLinksGroups]
    by_cases hmem : gid ∈ labeled
    · rw [if_pos hmem]
      exact ih labeled cnt
    · rw [if_neg hmem, List.map_append, serviceLinksLine_map_id, ih _ _,
        List.length_append, List.range_add, List.map_append, List.map_map]
      congr 1
      apply List.map_congr_left
      intro i hi
      simp only [Function.comp_apply]
      omega

/-- Boarding-link ids form the ramp starting at `base + c`, two per service
node. -/
theorem boardingLinksAux_map_id (base : Nat) (snodes : List NodeRow) :
    ∀ c : Nat, (boardingLinksAux base c snodes).map Link.link_id =
      (List.range (boardingLinksAux base c snodes).length).map
        (fun i => base + c + i) := by
  induction snodes with
  | nil => intro c; rfl
  | cons s rest ih =>
    intro c
    have hlen : (boardingLinksAux base c (s :: rest)).length =
        2 + (boardingLinksAux base (c + 2) rest).length := by
      rw [boardingLinksAux]
      simp only [List.length_cons]
      omega
    have hr2 : List.range 2 = [0, 1] := rfl
    rw [hlen, boardingLinksAux, List.map_cons, List.map_cons, ih (c + 2),
      List.range_add, List.map_append, List.map_map, hr2, List.map_cons,
      List.map_cons, List.map_nil]
    refine List.cons_eq_cons.mpr ⟨by simp, List.cons_eq_cons.mpr ⟨rfl, ?_⟩⟩
    apply List.map_congr_left
    intro i hi
    simp only [Function.comp_apply]
    omega

/-- C3 (amended).  Service links receive ids `1_000_001, 1_000_002, ...,
1_000_000 + N`; the boarding loop then continues at `1_000_000 + N` — not
`1_000_000 + N + 1` — so its ids are `1_000_000 + N, 1_000_000 + N + 1,
...`: each kind is strictly increasing, but the first boarding link reuses
the id of the last service link whenever both kinds are nonempty. -/
theorem link_id_sequence (groups : List (String × List EnrichedRow))
    (nodes : List NodeRow) (acc : List Link) :
    create_service_boarding_links groups nodes acc =
        acc ++ svcOf groups nodes ++ brdOf groups nodes ∧
      (svcOf groups nodes).map Link.link_id =
        (List.range (svcOf groups nodes).length).map (fun i => 1000001 + i) ∧
      (brdOf groups nodes).map Link.link_id =
        (List.range (brdOf groups nodes).length).map
          (fun i => 1000000 + (svcOf groups nodes).length + i) := by
  refine ⟨rfl, ?_, ?_⟩
  · rw [svcOf, serviceLinksGroups_map_id]
  · rw [brdOf, boardingLinksAux_map_id]
    apply List.map_congr_left
    intro i hi
    omega

/-- Counterexample to C3: on a two-stop line whose node table holds two
service nodes, the single service link and the first boarding link both
receive `link_id = 1_000_001`, so the emitted ids are not pairwise
distinct. -/
theorem link_id_collision :
    ¬ ((create_service_boarding_links cexGroups cexNodes []).map Link.link_id).Nodup := by
  decide

/-- Every link the inner transfer loop emits connects the origin with a
candidate whose computed distance lies in `[1, 321.869]` meters and whose
`(route_id, agency_name)` pair differs from the origin's. -/
theorem transfer_inner_mem (dist : ℚ → ℚ → ℚ → ℚ → ℚ) (p : NodeRow)
    (qs : List NodeRow) :
    ∀ (labeled : List (String × String)) (count nid : Nat) (L : Link),
      L ∈ (transfer_inner dist p qs labeled count nid).1 →
      ∃ q ∈ qs,
        1 ≤ dist p.x_coord p.y_coord q.x_coord q.y_coord ∧
        dist p.x_coord p.y_coord q.x_coord q.y_coord ≤ 321.869 ∧
        (p.route_id, p.agency_name) ≠ (q.route_id, q.agency_name) ∧
        ((L.from_node_id = p.node_id ∧ L.to_node_id = q.node_id) ∨
          (L.from_node_id = q.node_id ∧ L.to_node_id = p.node_id)) := by
  induction qs with
  | nil =>
    intro labeled count nid L hL
    simp [transfer_inner] at hL
  | cons q rest ih =>
    intro labeled count nid L hL
    rw [transfer_inner] at hL
    by_cases h10 : count ≥ 10
    · rw [if_pos h10] at hL
      simp at hL
    · rw [if_neg h10] at hL
      by_cases hsame : (p.route_id, p.agency_name) = (q.route_id, q.agency_name)
      · rw [if_pos hsame] at hL
        obtain ⟨q2, hq2, hrest⟩ := ih labeled count nid L hL
        exact ⟨q2, List.mem_cons_of_mem _ hq2, hrest⟩
      · rw [if_neg hsame] at hL
        by_cases hlen : dist p.x_coord p.y_coord q.x_coord q.y_coord > 321.869 ∨
            dist p.x_coord p.y_coord q.x_coord q.y_coord < 1
        · rw [if_pos hlen] at hL
          obtain ⟨q2, hq2, hrest⟩ := ih labeled count nid L hL
          exact ⟨q2, List.mem_cons_of_mem _ hq2, hrest⟩
        · rw [if_neg hlen] at hL
          push_neg at hlen
          by_cases hlab : (q.route_id, q.agency_name) ∈ labeled
          · rw [if_pos hlab] at hL
            obtain ⟨q2, hq2, hrest⟩ := ih labeled count nid L hL
            exact ⟨q2, List.mem_cons_of_mem _ hq2, hrest⟩
          · rw [if_neg hlab] at hL
            rcases List.mem_cons.mp hL with h1 | hL2
            · exact ⟨q, List.mem_cons_self _ _, hlen.2, hlen.1, hsame,
                Or.inl ⟨by rw [h1], by rw [h1]⟩⟩
            · rcases List.mem_cons.mp hL2 with h2 | hL3
              · exact ⟨q, List.mem_cons_self _ _, hlen.2, hlen.1, hsame,
                  Or.inr ⟨by rw [h2], by rw [h2]⟩⟩
              · obtain ⟨q2, hq2, hrest⟩ := ih _ _ _ L hL3
                exact ⟨q2, List.mem_cons_of_mem _ hq2, hrest⟩

/-- The inner transfer loop entered with fan-out counter `count` emits at
most `2 * (10 - count)` links. -/
theorem transfer_inner_length (dist : ℚ → ℚ → ℚ → ℚ → ℚ) (p : NodeRow)
    (qs : List NodeRow) :
    ∀ (labeled : List (String × String)) (count nid : Nat),
      (transfer_inner dist p qs labeled count nid).1.length ≤ 2 * (10 - count) := by
  induction qs with
  | nil =>
    intro labeled count nid
    simp [transfer_inner]
  | cons q rest ih =>
    intro labeled count nid
    rw [transfer_inner]
    by_cases h10 : count ≥ 10
    · rw [if_pos h10]
      simp
    · rw [if_neg h10]
      by_cases hsame : (p.route_id, p.agency_name) = (q.route_id, q.agency_name)
      · rw [if_pos hsame]
        exact ih labeled count nid
      · rw [if_neg hsame]
        by_cases hlen : dist p.x_coord p.y_coord q.x_coord q.y_coord > 321.869 ∨
            dist p.x_coord p.y_coord q.x_coord q.y_coord < 1
        · rw [if_pos hlen]
          exact ih labeled count nid
        · rw [if_neg hlen]
          by_cases hlab : (q.route_id, q.agency_name) ∈ labeled
          · rw [if_pos hlab]
            exact ih labeled count nid
          · rw [if_neg hlab]
            have hrec := ih ((q.route_id, q.agency_name) :: labeled) (count + 1) (nid + 2)
            simp only [List.length_cons]
            omega

/-- Every link the outer transfer loop emits connects two physical rows
subject to the inner-loop constraints. -/
theorem transfer_outer_mem (dist : ℚ → ℚ → ℚ → ℚ → ℚ) (pnodes : List NodeRow)
    (rem : List NodeRow) :
    ∀ (nid : Nat) (L : Link), L ∈ transfer_outer dist pnodes rem nid →
      ∃ P ∈ rem, ∃ Q ∈ pnodes,
        1 ≤ dist P.x_coord P.y_coord Q.x_coord Q.y_coord ∧
        dist P.x_coord P.y_coord Q.x_coord Q.y_coord ≤ 321.869 ∧
        (P.route_id, P.agency_name) ≠ (Q.route_id, Q.agency_name) ∧
        ((L.from_node_id = P.node_id ∧ L.to_node_id = Q.node_id) ∨
          (L.from_node_id = Q.node_id ∧ L.to_node_id = P.node_id)) := by
  induction rem with
  | nil =>
    intro nid L hL
    simp [transfer_outer] at hL
  | cons p rest ih =>
    intro nid L hL
    rw [transfer_outer] at hL
    rcases List.mem_append.mp hL with h1 | h2
    · obtain ⟨q, hq, hrest⟩ := transfer_inner_mem dist p _ _ _ _ L h1
      exact ⟨p, List.mem_cons_self _ _, q, List.mem_of_mem_filter hq, hrest⟩
    · obtain ⟨P, hP, hrest2⟩ := ih _ L h2
      exact ⟨P, List.mem_cons_of_mem _ hP, hrest2⟩

/-- C5.  Every transfer link joins two physical nodes whose computed
distance lies in `[1, 321.869]` meters and whose `(route_id, agency_name)`
pairs differ, and the per-origin loop (entered with `count = 0`) emits at
most 10 reciprocal pairs, i.e. at most 20 links. -/
theorem transfer_link_invariants (dist : ℚ → ℚ → ℚ → ℚ → ℚ) (nodes : List NodeRow)
    (L : Link) (p : NodeRow) (qs : List NodeRow) (nid : Nat)
    (hL : L ∈ create_transferring_links dist nodes []) :
    (∃ P ∈ physical_rows nodes, ∃ Q ∈ physical_rows nodes,
        1 ≤ dist P.x_coord P.y_coord Q.x_coord Q.y_coord ∧
        dist P.x_coord P.y_coord Q.x_coord Q.y_coord ≤ 321.869 ∧
        (P.route_id, P.agency_name) ≠ (Q.route_id, Q.agency_name) ∧
        ((L.from_node_id = P.node_id ∧ L.to_node_id = Q.node_id) ∨
          (L.from_node_id = Q.node_id ∧ L.to_node_id = P.node_id))) ∧
      (transfer_inner dist p qs [] 0 nid).1.length ≤ 20 := by
  constructor
  · have hL2 : L ∈ transfer_outer dist (physical_rows nodes) (physical_rows nodes) 0 := by
      simpa [create_transferring_links] using hL
    exact transfer_outer_mem dist _ _ 0 L hL2
  · have hlen := transfer_inner_length dist p qs [] 0 nid
    omega

/-- Witness for `transfer_link_invariants`: two stops 0.001 degrees apart
on different routes, a constant 10-meter distance function, and the first
emitted transfer link. -/
theorem transfer_link_invariants_witness :
    (∃ P ∈ physical_rows transferNodes, ∃ Q ∈ physical_rows transferNodes,
        1 ≤ dist10 P.x_coord P.y_coord Q.x_coord Q.y_coord ∧
        dist10 P.x_coord P.y_coord Q.x_coord Q.y_coord ≤ 321.869 ∧
        (P.route_id, P.agency_name) ≠ (Q.route_id, Q.agency_name) ∧
        ((transferLink1.from_node_id = P.node_id ∧
            transferLink1.to_node_id = Q.node_id) ∨
          (transferLink1.from_node_id = Q.node_id ∧
            transferLink1.to_node_id = P.node_id))) ∧
      (transfer_inner dist10 node0 [] [] 0 0).1.length ≤ 20 :=
  transfer_link_invariants dist10 transferNodes transferLink1 node0 [] 0 (by
    norm_num [create_transferring_links, transfer_outer, transfer_inner,
      bbox_neighbors, physical_rows, transferNodes, node0, dist10, transferLink1]
    decide)

end GtfsToGmns
